import Mathlib

/-!
Verification development for the NorMITs-Demand repository.

This file gives a shallow embedding in Lean 4 of the parts of the repository
that the checked properties are about:

* `old_tms/multiprocessing_wrapper.py` — the process-pool wrapper
  (`_check_args_kwargs`, `_call_order_wrapper`, the in-order/out-of-order
  sister functions, `create_kill_pool_fn` and `wait_for_pool_results`);
* `normits_demand/matrices/utils.py` — `get_wide_mask`, `get_internal_mask`
  and `get_external_mask`;
* the demand-vector core (`normits_demand/core/`), whose implementation files
  are not part of the source tree here and are therefore modelled from the
  specification document.

Python machine floats are modelled by exact rationals, Python exceptions by
`Except`, and the nondeterministic arrival order of pool results by explicit
permutation hypotheses.
-/

namespace NorMITs

/-! ## `old_tms/multiprocessing_wrapper.py` -/

/-- Embedding of `_check_args_kwargs`.  If `args` or `kwargs` is `None` it is
filled with copies of its default value to match the length of the other; if
both are `None` they are filled to `length`; if both are `None` and `length`
is also `None`, a `ValueError` is raised; if neither is `None` they are
returned as given. -/
def check_args_kwargs {α κ : Type} (args : Option (List α)) (kwargs : Option (List κ))
    (args_default : α) (kwargs_default : κ) (length : Option Nat) :
    Except String (List α × List κ) :=
  match args, kwargs with
  | some a, none => Except.ok (a, List.replicate a.length kwargs_default)
  | none, some k => Except.ok (List.replicate k.length args_default, k)
  | none, none =>
    match length with
    | some n => Except.ok (List.replicate n args_default, List.replicate n kwargs_default)
    | none =>
      Except.error "Both args and kwargs are None and length has not been set."
  | some a, some k => Except.ok (a, k)

/-- C10: `_check_args_kwargs` raises `ValueError` exactly when `args`, `kwargs`
and `length` are all `None`; in every other case it returns a pair of lists of
equal length — a `None` `args` is replaced by copies of `args_default` matching
`len(kwargs)`, a `None` `kwargs` by copies of `kwargs_default` matching
`len(args)`, both by `length` copies of the defaults when both are `None`, and
both are returned unchanged when neither is `None` (equal input lengths
assumed). -/
theorem check_args_kwargs_cases {α κ : Type} (args : Option (List α))
    (kwargs : Option (List κ)) (ad : α) (kd : κ) (length : Option Nat) :
    ((check_args_kwargs args kwargs ad kd length).isOk = false ↔
      args = none ∧ kwargs = none ∧ length = none)
    ∧ (∀ a, args = some a → kwargs = none →
        check_args_kwargs args kwargs ad kd length
          = Except.ok (a, List.replicate a.length kd))
    ∧ (∀ k, args = none → kwargs = some k →
        check_args_kwargs args kwargs ad kd length
          = Except.ok (List.replicate k.length ad, k))
    ∧ (∀ n, args = none → kwargs = none → length = some n →
        check_args_kwargs args kwargs ad kd length
          = Except.ok (List.replicate n ad, List.replicate n kd))
    ∧ (∀ a k, args = some a → kwargs = some k →
        check_args_kwargs args kwargs ad kd length = Except.ok (a, k))
    ∧ (∀ a k, check_args_kwargs args kwargs ad kd length = Except.ok (a, k) →
        (∀ a0 k0, args = some a0 → kwargs = some k0 → a0.length = k0.length) →
        a.length = k.length) := by
  refine ⟨?_, ?_, ?_, ?_, ?_, ?_⟩
  · cases args <;> cases kwargs <;> cases length <;>
      simp [check_args_kwargs, Except.isOk, Except.toBool]
  · intro a ha hk
    subst ha; subst hk
    rfl
  · intro k ha hk
    subst ha; subst hk
    rfl
  · intro n ha hk hl
    subst ha; subst hk; subst hl
    rfl
  · intro a k ha hk
    subst ha; subst hk
    rfl
  · intro a k hres heq
    cases args with
    | none =>
      cases kwargs with
      | none =>
        cases length with
        | none => simp [check_args_kwargs] at hres
        | some n =>
          simp only [check_args_kwargs, Except.ok.injEq, Prod.mk.injEq] at hres
          rw [← hres.1, ← hres.2]
          simp
      | some k0 =>
        simp only [check_args_kwargs, Except.ok.injEq, Prod.mk.injEq] at hres
        rw [← hres.1, ← hres.2]
        simp
    | some a0 =>
      cases kwargs with
      | none =>
        simp only [check_args_kwargs, Except.ok.injEq, Prod.mk.injEq] at hres
        rw [← hres.1, ← hres.2]
        simp
      | some k0 =>
        simp only [check_args_kwargs, Except.ok.injEq, Prod.mk.injEq] at hres
        rw [← hres.1, ← hres.2]
        exact heq a0 k0 rfl rfl

/-- Witness for C10 at concrete inputs. -/
theorem check_args_kwargs_cases_witness :
    check_args_kwargs (some [1, 2]) (none : Option (List Nat)) 0 7 none
      = Except.ok ([1, 2], [7, 7]) :=
  (check_args_kwargs_cases (some [1, 2]) (none : Option (List Nat)) 0 7 none).2.1
    [1, 2] rfl rfl

/-- Embedding of `_call_order_wrapper`: attaches the submission index to the
function result, so results arriving out of order can be sorted back. -/
def call_order_wrapper {α κ β : Type} (func : α → κ → β) (index : Nat)
    (args : α) (kwargs : κ) : Nat × β :=
  (index, func args kwargs)

/-- The submission loop of `_process_pool_wrapper_kwargs_in_order`:
`for i, (a, k) in enumerate(zip(args, kwargs))`, each call wrapped by
`_call_order_wrapper` with its index.  `i` is the index of the first job. -/
def tag_jobs_from {α κ β : Type} (fn : α → κ → β) (i : Nat) :
    List (α × κ) → List (Nat × β)
  | [] => []
  | j :: js => call_order_wrapper fn i j.1 j.2 :: tag_jobs_from fn (i + 1) js

/-- All jobs of a batch, tagged with their submission indices starting at 0. -/
def submit_tagged {α κ β : Type} (fn : α → κ → β) (args : List α)
    (kwargs : List κ) : List (Nat × β) :=
  tag_jobs_from fn 0 (args.zip kwargs)

/-- The ordering key used by `sorted(results, key=lambda x: x[0])`. -/
def keyLE {β : Type} (a b : Nat × β) : Prop := a.1 ≤ b.1

/-- Strict version of `keyLE`; tagged results have pairwise distinct keys. -/
def keyLT {β : Type} (a b : Nat × β) : Prop := a.1 < b.1

instance {β : Type} : DecidableRel (@keyLE β) := fun a b => Nat.decLe a.1 b.1

instance {β : Type} : IsTotal (Nat × β) keyLE := ⟨fun a b => Nat.le_total a.1 b.1⟩

instance {β : Type} : IsTrans (Nat × β) keyLE := ⟨fun _ _ _ => Nat.le_trans⟩

instance {β : Type} : IsTrans (Nat × β) keyLT := ⟨fun _ _ _ => Nat.lt_trans⟩

instance {β : Type} : IsAntisymm (Nat × β) keyLT :=
  ⟨fun a b h1 h2 => absurd (Nat.lt_trans h1 h2) (Nat.lt_irrefl _)⟩

/-- The final step of `_process_pool_wrapper_kwargs_in_order`:
`_, results = zip(*sorted(results, key=lambda x: x[0]))`. -/
def order_results {β : Type} (gathered : List (Nat × β)) : List β :=
  (List.insertionSort keyLE gathered).map Prod.snd

/-- Embedding of `process_pool_wrapper`: dispatches on the caller's `in_order`
flag to the in-order sister function (sort tagged results, strip indices) or
the out-of-order one (return gathered results as they came).  The pool's
nondeterministic arrival order is modelled by passing the gathered result
lists explicitly; theorems constrain them to be permutations of the submitted
work. -/
def process_pool_wrapper {α κ β : Type} (fn : α → κ → β) (args : List α)
    (kwargs : List κ) (in_order : Bool) (gathered_tagged : List (Nat × β))
    (gathered_plain : List β) : List β :=
  if in_order then order_results gathered_tagged else gathered_plain

lemma tag_jobs_from_map_snd {α κ β : Type} (fn : α → κ → β) (i : Nat)
    (js : List (α × κ)) :
    (tag_jobs_from fn i js).map Prod.snd = js.map (fun j => fn j.1 j.2) := by
  induction js generalizing i with
  | nil => rfl
  | cons j js ih => simp [tag_jobs_from, call_order_wrapper, ih]

lemma tag_jobs_from_key_lb {α κ β : Type} (fn : α → κ → β) (i : Nat)
    (js : List (α × κ)) : ∀ p ∈ tag_jobs_from fn i js, i ≤ p.1 := by
  induction js generalizing i with
  | nil => intro p hp; cases hp
  | cons j js ih =>
    intro p hp
    rcases List.mem_cons.mp hp with h | h
    · subst h; exact Nat.le_refl _
    · exact Nat.le_trans (Nat.le_succ i) (ih (i + 1) p h)

lemma tag_jobs_from_sorted_lt {α κ β : Type} (fn : α → κ → β) (i : Nat)
    (js : List (α × κ)) : List.Sorted keyLT (tag_jobs_from fn i js) := by
  induction js generalizing i with
  | nil => exact List.sorted_nil
  | cons j js ih =>
    refine List.Pairwise.cons ?_ (ih (i + 1))
    intro p hp
    exact Nat.lt_of_lt_of_le (Nat.lt_succ_self i) (tag_jobs_from_key_lb fn (i + 1) js p hp)

lemma sorted_lt_of_sorted_le_nodup_keys {β : Type} (l : List (Nat × β))
    (hs : List.Sorted keyLE l) (hn : (l.map Prod.fst).Nodup) :
    List.Sorted keyLT l := by
  have hp : List.Pairwise (fun a b : Nat × β => a.1 ≠ b.1) l :=
    (List.pairwise_map).mp hn
  exact (hs.and hp).imp (fun h => Nat.lt_of_le_of_ne h.1 h.2)

/-- Sorting any permutation of the tagged batch by key recovers the tagged
batch exactly: the keys are the distinct indices 0..n-1. -/
lemma insertionSort_perm_tagged {α κ β : Type} (fn : α → κ → β)
    (js : List (α × κ)) (g : List (Nat × β))
    (hperm : g.Perm (tag_jobs_from fn 0 js)) :
    List.insertionSort keyLE g = tag_jobs_from fn 0 js := by
  have hsortperm : (List.insertionSort keyLE g).Perm (tag_jobs_from fn 0 js) :=
    (List.perm_insertionSort keyLE g).trans hperm
  have htagnodup : ((tag_jobs_from fn 0 js).map Prod.fst).Nodup := by
    have : List.Pairwise (fun a b : Nat × β => a.1 ≠ b.1) (tag_jobs_from fn 0 js) :=
      (tag_jobs_from_sorted_lt fn 0 js).imp (fun h => Nat.ne_of_lt h)
    exact (List.pairwise_map).mpr this
  have hnodup : ((List.insertionSort keyLE g).map Prod.fst).Nodup :=
    (hsortperm.map Prod.fst).nodup_iff.mpr htagnodup
  have hlt : List.Sorted keyLT (List.insertionSort keyLE g) :=
    sorted_lt_of_sorted_le_nodup_keys _ (List.sorted_insertionSort keyLE g) hnodup
  exact List.eq_of_perm_of_sorted hsortperm hlt (tag_jobs_from_sorted_lt fn 0 js)

/-- C3: a successful `process_pool_wrapper` call with `in_order=True` returns
exactly `[fn(*args[i], **kwargs[i])]` in submission order (indices tagged at
submission, results sorted by index at the end), while `in_order=False`
returns the same collection of per-call results in whatever order they were
gathered; the flag alone selects the behaviour. -/
theorem process_pool_wrapper_order {α κ β : Type} (fn : α → κ → β)
    (args : List α) (kwargs : List κ) (gathered_tagged : List (Nat × β))
    (gathered_plain : List β)
    (h1 : gathered_tagged.Perm (submit_tagged fn args kwargs))
    (h2 : gathered_plain.Perm ((args.zip kwargs).map (fun j => fn j.1 j.2))) :
    process_pool_wrapper fn args kwargs true gathered_tagged gathered_plain
      = (args.zip kwargs).map (fun j => fn j.1 j.2)
    ∧ (process_pool_wrapper fn args kwargs false gathered_tagged
        gathered_plain).Perm ((args.zip kwargs).map (fun j => fn j.1 j.2)) := by
  constructor
  · show order_results gathered_tagged = _
    unfold order_results
    rw [insertionSort_perm_tagged fn (args.zip kwargs) gathered_tagged h1]
    exact tag_jobs_from_map_snd fn 0 (args.zip kwargs)
  · exact h2

/-- Witness for C3: three jobs gathered out of submission order. -/
theorem process_pool_wrapper_order_witness :
    process_pool_wrapper (fun (a : Nat) (k : Nat) => a + k) [1, 2, 3] [10, 20, 30]
        true [(2, 33), (0, 11), (1, 22)] [33, 11, 22]
      = [11, 22, 33]
    ∧ (process_pool_wrapper (fun (a : Nat) (k : Nat) => a + k) [1, 2, 3]
        [10, 20, 30] false [(2, 33), (0, 11), (1, 22)] [33, 11, 22]).Perm
        [11, 22, 33] :=
  process_pool_wrapper_order (fun a k => a + k) [1, 2, 3] [10, 20, 30]
    [(2, 33), (0, 11), (1, 22)] [33, 11, 22]
    (by decide) (by decide)

/-- State of the process pool as seen by `create_kill_pool_fn`: whether
`pool.close()` and `pool.terminate()` have been called, and whether the
shared `terminate_process_event` has been set. -/
structure PoolState where
  closed : Bool
  terminated : Bool
  event_set : Bool
deriving DecidableEq

/-- Embedding of the `kill_pool` callback produced by `create_kill_pool_fn`:
on any worker exception it closes the pool, terminates it, and sets the
terminate event (the printing of the traceback has no modelled effect). -/
def kill_pool (p : PoolState) : PoolState :=
  { p with closed := true, terminated := true, event_set := true }

/-- What a worker's `AsyncResult` eventually holds: a value, or a raised
exception (in which case `res.successful()` is false). -/
inductive Outcome (β : Type) where
  | success (b : β) : Outcome β
  | failure : Outcome β
deriving DecidableEq

/-- One submitted job's `AsyncResult`, abstracted as the loop iteration at
which it becomes ready (`res.ready()`) and its outcome. -/
structure AsyncRes (β : Type) where
  readyAt : Nat
  outcome : Outcome β
deriving DecidableEq

/-- Whether `res.ready()` holds at loop time `t`. -/
def resReady {β : Type} (t : Nat) (r : AsyncRes β) : Bool :=
  r.readyAt ≤ t

/-- One pass of the scanning `for` loop inside `wait_for_pool_results`:
ready results are collected in order (raising `MultiprocessingError`, here
`Except.error`, as soon as a ready result is not successful) and removed from
the pending list. -/
def scan_results {β : Type} (t : Nat) :
    List (AsyncRes β) → Except Unit (List (AsyncRes β) × List β)
  | [] => Except.ok ([], [])
  | r :: rs =>
    if resReady t r then
      match r.outcome with
      | Outcome.failure => Except.error ()
      | Outcome.success b =>
        match scan_results t rs with
        | Except.error e => Except.error e
        | Except.ok (rem, got) => Except.ok (rem, b :: got)
    else
      match scan_results t rs with
      | Except.error e => Except.error e
      | Except.ok (rem, got) => Except.ok (r :: rem, got)

/-- Possible outcomes of `wait_for_pool_results`: the full result list, a
`MultiprocessingError`, a `TimeoutError`, or fuel exhaustion (the model's
stand-in for an unboundedly long run, never reached in the theorems). -/
inductive WaitResult (β : Type) where
  | done (l : List β) : WaitResult β
  | mpError : WaitResult β
  | timeoutErr : WaitResult β
  | outOfFuel : WaitResult β
deriving DecidableEq

/-- Embedding of the `while not got_all_results` loop of
`wait_for_pool_results`.  Each iteration sleeps (advancing the clock `t` by
one tick), raises `MultiprocessingError` if the terminate event is set,
raises `TimeoutError` if the elapsed time exceeds `result_timeout`, then
scans the pending results, raising `MultiprocessingError` on an unsuccessful
one, and returns once every submitted result has been collected. -/
def wait_for_pool_results {β : Type} (fuel : Nat) (event : Nat → Bool)
    (result_timeout : Nat) (t : Nat) (remaining : List (AsyncRes β))
    (collected : List β) (n_start_results : Nat) : WaitResult β :=
  match fuel with
  | 0 => WaitResult.outOfFuel
  | fuel + 1 =>
    let t' := t + 1
    if event t' then WaitResult.mpError
    else if result_timeout < t' then WaitResult.timeoutErr
    else
      match scan_results t' remaining with
      | Except.error _ => WaitResult.mpError
      | Except.ok (rem, got) =>
        if (collected ++ got).length = n_start_results then
          WaitResult.done (collected ++ got)
        else
          wait_for_pool_results fuel event result_timeout t' rem
            (collected ++ got) n_start_results

/-- The body shared by both sister functions of `process_pool_wrapper`:
submit the jobs, scale the caller's per-call `result_timeout` by
`max(len(results), 1)`, and wait for the results. -/
def process_pool_run {β : Type} (fuel : Nat) (event : Nat → Bool)
    (result_timeout : Nat) (jobs : List (AsyncRes β)) : WaitResult β :=
  wait_for_pool_results fuel event (result_timeout * max jobs.length 1) 0
    jobs [] jobs.length

lemma scan_results_length {β : Type} (t : Nat) (rs : List (AsyncRes β))
    (rem : List (AsyncRes β)) (got : List β)
    (h : scan_results t rs = Except.ok (rem, got)) :
    rem.length + got.length = rs.length := by
  induction rs generalizing rem got with
  | nil =>
    simp [scan_results] at h
    rw [h.1, h.2]
    rfl
  | cons r rs ih =>
    by_cases hr : resReady t r
    · cases ho : r.outcome with
      | failure => simp [scan_results, hr, ho] at h
      | success b =>
        cases hs : scan_results t rs with
        | error e => simp [scan_results, hr, ho, hs] at h
        | ok p =>
          simp only [scan_results, hr, if_true, ho, hs] at h
          cases h
          have := ih p.1 p.2 (by rw [hs])
          simp only [List.length_cons]
          omega
    · cases hs : scan_results t rs with
      | error e => simp [scan_results, hr, hs] at h
      | ok p =>
        simp only [scan_results, hr, if_false, hs] at h
        cases h
        have := ih p.1 p.2 (by rw [hs])
        simp only [List.length_cons]
        omega

lemma scan_results_keeps_failure {β : Type} (t : Nat) (rs : List (AsyncRes β))
    (rem : List (AsyncRes β)) (got : List β)
    (h : scan_results t rs = Except.ok (rem, got)) :
    ∀ r ∈ rs, r.outcome = Outcome.failure → r ∈ rem := by
  induction rs generalizing rem got with
  | nil =>
    intro r hr
    cases hr
  | cons r0 rs ih =>
    intro r hr hfail
    by_cases hready : resReady t r0
    · cases ho : r0.outcome with
      | failure => simp [scan_results, hready, ho] at h
      | success b =>
        cases hs : scan_results t rs with
        | error e => simp [scan_results, hready, ho, hs] at h
        | ok p =>
          simp only [scan_results, hready, if_true, ho, hs] at h
          cases h
          rcases List.mem_cons.mp hr with heq | hmem
          · subst heq
            rw [ho] at hfail
            cases hfail
          · exact ih p.1 p.2 (by rw [hs]) r hmem hfail
    · cases hs : scan_results t rs with
      | error e => simp [scan_results, hready, hs] at h
      | ok p =>
        simp only [scan_results, hready, if_false, hs] at h
        cases h
        rcases List.mem_cons.mp hr with heq | hmem
        · subst heq
          exact List.mem_cons_self _ _
        · exact List.mem_cons_of_mem _ (ih p.1 p.2 (by rw [hs]) r hmem hfail)

lemma scan_results_keeps_unready {β : Type} (t : Nat) (rs : List (AsyncRes β))
    (rem : List (AsyncRes β)) (got : List β)
    (h : scan_results t rs = Except.ok (rem, got)) :
    ∀ r ∈ rs, resReady t r = false → r ∈ rem := by
  induction rs generalizing rem got with
  | nil =>
    intro r hr
    cases hr
  | cons r0 rs ih =>
    intro r hr hunready
    by_cases hready : resReady t r0
    · cases ho : r0.outcome with
      | failure => simp [scan_results, hready, ho] at h
      | success b =>
        cases hs : scan_results t rs with
        | error e => simp [scan_results, hready, ho, hs] at h
        | ok p =>
          simp only [scan_results, hready, if_true, ho, hs] at h
          cases h
          rcases List.mem_cons.mp hr with heq | hmem
          · subst heq
            rw [hready] at hunready
            cases hunready
          · exact ih p.1 p.2 (by rw [hs]) r hmem hunready
    · cases hs : scan_results t rs with
      | error e => simp [scan_results, hready, hs] at h
      | ok p =>
        simp only [scan_results, hready, if_false, hs] at h
        cases h
        rcases List.mem_cons.mp hr with heq | hmem
        · subst heq
          exact List.mem_cons_self _ _
        · exact List.mem_cons_of_mem _ (ih p.1 p.2 (by rw [hs]) r hmem hunready)

lemma scan_results_error_of_ready_failure {β : Type} (t : Nat)
    (rs : List (AsyncRes β)) (r : AsyncRes β) (hr : r ∈ rs)
    (hready : resReady t r = true) (hfail : r.outcome = Outcome.failure) :
    scan_results t rs = Except.error () := by
  induction rs with
  | nil => cases hr
  | cons r0 rs ih =>
    rcases List.mem_cons.mp hr with heq | hmem
    · subst heq
      simp [scan_results, hready, hfail]
    · by_cases h0 : resReady t r0
      · cases ho : r0.outcome with
        | failure => simp [scan_results, h0, ho]
        | success b => simp [scan_results, h0, ho, ih hmem]
      · simp [scan_results, h0, ih hmem]

/-- A run that returns `done` has collected every submitted result: the
returned list is never partial. -/
lemma wait_done_complete {β : Type} (fuel : Nat) (event : Nat → Bool)
    (timeout t : Nat) (remaining : List (AsyncRes β)) (collected : List β)
    (total : Nat) (hinv : total = remaining.length + collected.length)
    (l : List β)
    (h : wait_for_pool_results fuel event timeout t remaining collected total
          = WaitResult.done l) :
    l.length = total := by
  induction fuel generalizing t remaining collected with
  | zero => simp [wait_for_pool_results] at h
  | succ fuel ih =>
    by_cases he : event (t + 1)
    · simp [wait_for_pool_results, he] at h
    · by_cases ht : timeout < t + 1
      · simp [wait_for_pool_results, he, ht] at h
      · cases hs : scan_results (t + 1) remaining with
        | error e => simp [wait_for_pool_results, he, ht, hs] at h
        | ok p =>
          by_cases hdone : (collected ++ p.2).length = total
          · simp [wait_for_pool_results, he, ht, hs, hdone] at h
            rw [← h]
            exact hdone
          · simp only [wait_for_pool_results, he, Bool.false_eq_true, if_false,
              ht, hs, hdone, if_true] at h
            have hlen := scan_results_length (t + 1) remaining p.1 p.2 (by rw [hs])
            refine ih (t + 1) p.1 (collected ++ p.2) ?_ h
            rw [List.length_append]
            omega

/-- While a failed job is still pending, the loop can never return `done`. -/
lemma wait_no_done_of_failure {β : Type} (fuel : Nat) (event : Nat → Bool)
    (timeout t : Nat) (remaining : List (AsyncRes β)) (collected : List β)
    (total : Nat) (hinv : total = remaining.length + collected.length)
    (r : AsyncRes β) (hr : r ∈ remaining)
    (hfail : r.outcome = Outcome.failure) (l : List β) :
    wait_for_pool_results fuel event timeout t remaining collected total
      ≠ WaitResult.done l := by
  induction fuel generalizing t remaining collected with
  | zero => simp [wait_for_pool_results]
  | succ fuel ih =>
    by_cases he : event (t + 1)
    · simp [wait_for_pool_results, he]
    · by_cases ht : timeout < t + 1
      · simp [wait_for_pool_results, he, ht]
      · cases hs : scan_results (t + 1) remaining with
        | error e => simp [wait_for_pool_results, he, ht, hs]
        | ok p =>
          have hkeep : r ∈ p.1 :=
            scan_results_keeps_failure (t + 1) remaining p.1 p.2 (by rw [hs])
              r hr hfail
          have hlen := scan_results_length (t + 1) remaining p.1 p.2 (by rw [hs])
          have hne : (collected ++ p.2).length ≠ total := by
            rw [List.length_append]
            have hpos : 0 < p.1.length := List.length_pos_of_mem hkeep
            omega
          simp only [wait_for_pool_results, he, if_false, ht, hs, hne]
          exact ih (t + 1) p.1 (collected ++ p.2)
            (by rw [List.length_append]; omega) hkeep

/-- C4: on a worker exception the pool wrapper never returns a partial result
list.  The `kill_pool` error callback closes and terminates the pool and sets
the terminate event; `wait_for_pool_results` raises `MultiprocessingError`
when it sees the event set or an unsuccessful result; and no run of the
wrapper over a batch containing a failed job can return a `done` list. -/
theorem pool_failure_never_incomplete {β : Type} :
    (∀ p : PoolState, (kill_pool p).closed = true
      ∧ (kill_pool p).terminated = true ∧ (kill_pool p).event_set = true)
    ∧ (∀ (jobs : List (AsyncRes β)) (fuel : Nat) (event : Nat → Bool)
        (timeout : Nat) (r : AsyncRes β), r ∈ jobs →
        r.outcome = Outcome.failure → ∀ l : List β,
        process_pool_run fuel event timeout jobs ≠ WaitResult.done l)
    ∧ (∀ (jobs : List (AsyncRes β)) (fuel : Nat) (event : Nat → Bool)
        (timeout : Nat), event 1 = true →
        process_pool_run (fuel + 1) event timeout jobs = WaitResult.mpError)
    ∧ (∀ (jobs : List (AsyncRes β)) (fuel : Nat) (event : Nat → Bool)
        (timeout : Nat) (r : AsyncRes β), event 1 = false →
        1 ≤ timeout * max jobs.length 1 → r ∈ jobs → r.readyAt ≤ 1 →
        r.outcome = Outcome.failure →
        process_pool_run (fuel + 1) event timeout jobs = WaitResult.mpError)
    ∧ (∀ (jobs : List (AsyncRes β)) (fuel : Nat) (event : Nat → Bool)
        (timeout : Nat) (l : List β),
        process_pool_run fuel event timeout jobs = WaitResult.done l →
        l.length = jobs.length) := by
  refine ⟨fun p => ⟨rfl, rfl, rfl⟩, ?_, ?_, ?_, ?_⟩
  · intro jobs fuel event timeout r hr hfail l
    exact wait_no_done_of_failure fuel event (timeout * max jobs.length 1) 0
      jobs [] jobs.length (by simp) r hr hfail l
  · intro jobs fuel event timeout he
    simp [process_pool_run, wait_for_pool_results, he]
  · intro jobs fuel event timeout r he hto hr hready hfail
    have hscan : scan_results 1 jobs = Except.error () :=
      scan_results_error_of_ready_failure 1 jobs r hr
        (by simp [resReady]; omega) hfail
    have hnt : ¬ (timeout * max jobs.length 1 < 0 + 1) := by omega
    simp [process_pool_run, wait_for_pool_results, he, hnt, hscan]
  · intro jobs fuel event timeout l h
    exact wait_done_complete fuel event (timeout * max jobs.length 1) 0 jobs
      [] jobs.length (by simp) l h

/-- Witness for C4: a two-job batch whose second job fails immediately. -/
theorem pool_failure_never_incomplete_witness :
    process_pool_run 5 (fun _ => false) 3
        [AsyncRes.mk 1 (Outcome.success (42 : Nat)), AsyncRes.mk 1 Outcome.failure]
      ≠ WaitResult.done [42] :=
  (@pool_failure_never_incomplete Nat).2.1
    [AsyncRes.mk 1 (Outcome.success 42), AsyncRes.mk 1 Outcome.failure]
    5 (fun _ => false) 3 (AsyncRes.mk 1 Outcome.failure) (by decide) rfl [42]

lemma scan_results_rem_subset {β : Type} (t : Nat) (rs : List (AsyncRes β))
    (rem : List (AsyncRes β)) (got : List β)
    (h : scan_results t rs = Except.ok (rem, got)) :
    ∀ r ∈ rem, r ∈ rs := by
  induction rs generalizing rem got with
  | nil =>
    simp [scan_results] at h
    rw [h.1]
    intro r hr
    cases hr
  | cons r0 rs ih =>
    intro r hr
    by_cases hready : resReady t r0
    · cases ho : r0.outcome with
      | failure => simp [scan_results, hready, ho] at h
      | success b =>
        cases hs : scan_results t rs with
        | error e => simp [scan_results, hready, ho, hs] at h
        | ok p =>
          simp only [scan_results, hready, if_true, ho, hs] at h
          cases h
          exact List.mem_cons_of_mem _ (ih p.1 p.2 (by rw [hs]) r hr)
    · cases hs : scan_results t rs with
      | error e => simp [scan_results, hready, hs] at h
      | ok p =>
        simp only [scan_results, hready, if_false, hs] at h
        cases h
        rcases List.mem_cons.mp hr with heq | hmem
        · subst heq
          exact List.mem_cons_self _ _
        · exact List.mem_cons_of_mem _ (ih p.1 p.2 (by rw [hs]) r hmem)

lemma scan_results_ok_of_no_failure {β : Type} (t : Nat)
    (rs : List (AsyncRes β))
    (hnf : ∀ r ∈ rs, r.outcome ≠ Outcome.failure) :
    ∃ rem got, scan_results t rs = Except.ok (rem, got) := by
  induction rs with
  | nil => exact ⟨[], [], rfl⟩
  | cons r0 rs ih =>
    obtain ⟨rem, got, hs⟩ := ih (fun r hr => hnf r (List.mem_cons_of_mem _ hr))
    by_cases hready : resReady t r0
    · cases ho : r0.outcome with
      | failure => exact absurd ho (hnf r0 (List.mem_cons_self _ _))
      | success b =>
        refine ⟨rem, b :: got, ?_⟩
        simp [scan_results, hready, ho, hs]
    · refine ⟨r0 :: rem, got, ?_⟩
      simp [scan_results, hready, hs]

/-- If some submitted job only becomes ready after the timeout, the wait loop
reaches the timeout check and raises `TimeoutError` instead of spinning. -/
lemma wait_timeout_of_straggler {β : Type} (fuel : Nat) (event : Nat → Bool)
    (timeout t : Nat) (remaining : List (AsyncRes β)) (collected : List β)
    (total : Nat)
    (hev : ∀ u, event u = false)
    (hnf : ∀ r ∈ remaining, r.outcome ≠ Outcome.failure)
    (r : AsyncRes β) (hr : r ∈ remaining) (hlate : timeout < r.readyAt)
    (hinv : total = remaining.length + collected.length)
    (hfuel : timeout + 1 ≤ fuel + t) (ht : t ≤ timeout) :
    wait_for_pool_results fuel event timeout t remaining collected total
      = WaitResult.timeoutErr := by
  induction fuel generalizing t remaining collected with
  | zero => omega
  | succ fuel ih =>
    by_cases htcheck : timeout < t + 1
    · simp [wait_for_pool_results, hev (t + 1), htcheck]
    · obtain ⟨rem, got, hs⟩ := scan_results_ok_of_no_failure (t + 1) remaining hnf
      have hkeep : r ∈ rem := by
        refine scan_results_keeps_unready (t + 1) remaining rem got hs r hr ?_
        simp only [resReady, decide_eq_false_iff_not]
        omega
      have hlen := scan_results_length (t + 1) remaining rem got hs
      have hne : ¬ ((collected ++ got).length = total) := by
        rw [List.length_append]
        have hpos : 0 < rem.length := List.length_pos_of_mem hkeep
        omega
      simp only [wait_for_pool_results, hev (t + 1), Bool.false_eq_true,
        if_false, htcheck, hs, hne, if_true]
      refine ih (t + 1) rem (collected ++ got)
        (fun r2 hr2 => hnf r2 (scan_results_rem_subset (t + 1) remaining rem got hs r2 hr2))
        hkeep (by rw [List.length_append]; omega) (by omega) (by omega)

/-- C5: waiting is bounded by a caller-configurable wall-clock timeout per job
batch.  The wrapper scales the caller's `result_timeout` by the number of
submitted jobs before waiting, and if that scaled timeout elapses before all
results are ready, `wait_for_pool_results` raises `TimeoutError` rather than
waiting indefinitely. -/
theorem pool_timeout_bounded {β : Type} (jobs : List (AsyncRes β))
    (result_timeout : Nat) (event : Nat → Bool) (fuel : Nat)
    (hev : ∀ u, event u = false)
    (hnf : ∀ r ∈ jobs, r.outcome ≠ Outcome.failure)
    (r : AsyncRes β) (hr : r ∈ jobs)
    (hlate : result_timeout * max jobs.length 1 < r.readyAt)
    (hfuel : result_timeout * max jobs.length 1 + 1 ≤ fuel) :
    process_pool_run fuel event result_timeout jobs
      = wait_for_pool_results fuel event
          (result_timeout * max jobs.length 1) 0 jobs [] jobs.length
    ∧ process_pool_run fuel event result_timeout jobs
      = WaitResult.timeoutErr := by
  refine ⟨rfl, ?_⟩
  exact wait_timeout_of_straggler fuel event
    (result_timeout * max jobs.length 1) 0 jobs [] jobs.length hev hnf r hr
    hlate (by simp) (by omega) (by omega)

/-- Witness for C5: one job that is only ready at tick 5, with a scaled
timeout of 2. -/
theorem pool_timeout_bounded_witness :
    process_pool_run 3 (fun _ => false) 2 [AsyncRes.mk 5 (Outcome.success (0 : Nat))]
      = WaitResult.timeoutErr :=
  (pool_timeout_bounded [AsyncRes.mk 5 (Outcome.success (0 : Nat))] 2
    (fun _ => false) 3 (fun _ => rfl)
    (by intro r hr; simp at hr; rw [hr]; intro hcon; cases hcon)
    (AsyncRes.mk 5 (Outcome.success 0)) (by simp) (by decide) (by decide)).2

/-! ## `normits_demand/matrices/utils.py` -/

/-- A dynamically typed Python argument as it can reach `get_wide_mask`'s
`zones` / `col_zones` / `index_zones` parameters: `None`, a list of zone
labels, or — through the positional-argument slip in `get_internal_mask` /
`get_external_mask` — a join function such as `operator.and_`. -/
inductive PyArg where
  | pynone : PyArg
  | zone_list (zs : List Nat) : PyArg
  | join_function (f : Bool → Bool → Bool) : PyArg

/-- Embedding of `operator.and_` on booleans. -/
def py_and (a b : Bool) : Bool := a && b

/-- Embedding of `operator.or_` on booleans. -/
def py_or (a b : Bool) : Bool := a || b

/-- Embedding of `np.array(arg, dtype)` as used to cast a zone argument: succeeds on a list
of zone labels, raises on anything else. -/
def cast_zone_arg : PyArg → Except String (List Nat)
  | PyArg.zone_list zs => Except.ok zs
  | PyArg.pynone => Except.error "Cannot cast to the required dtype"
  | PyArg.join_function _ => Except.error "Cannot cast to the required dtype"

/-- Embedding of the index arithmetic of a broadcast numpy axis: an axis of
extent 1 is read at position 0 whatever position is requested. -/
def np_index (axis_len i : Nat) : Nat := if axis_len = 1 then 0 else i

/-- Embedding of `np.broadcast_to(v, (rows, colsn))` for a one-dimensional
boolean vector `v`: the vector aligns with the trailing axis, so it must
already have length `colsn`, or length 1 (stretched); any other length makes
numpy raise `ValueError`. -/
def np_broadcast_to_row (v : List Bool) (rows colsn : Nat) :
    Except String (List (List Bool)) :=
  if v.length = colsn then Except.ok (List.replicate rows v)
  else
    match v with
    | [b] => Except.ok (List.replicate rows (List.replicate colsn b))
    | _ => Except.error "operands could not be broadcast together"

/-- Embedding of `.T` on a rectangular two-dimensional boolean array. -/
def np_transpose (g : List (List Bool)) : List (List Bool) :=
  match g with
  | [] => []
  | r0 :: _ =>
    (List.range r0.length).map (fun j => g.map (fun row => row.getD j false))

/-- Embedding of a numpy elementwise operation on two two-dimensional
boolean arrays with numpy's broadcasting rules: each axis pair must agree or
contain a 1, the result takes the larger extent on each axis, and a length-1
axis is read at position 0. -/
def np_elementwise (f : Bool → Bool → Bool) (a b : List (List Bool)) :
    Except String (List (List Bool)) :=
  if (a.length = b.length ∨ a.length = 1 ∨ b.length = 1)
      ∧ ((a.getD 0 []).length = (b.getD 0 []).length
        ∨ (a.getD 0 []).length = 1 ∨ (b.getD 0 []).length = 1) then
    Except.ok ((List.range (max a.length b.length)).map (fun i =>
      (List.range (max (a.getD 0 []).length (b.getD 0 []).length)).map (fun j =>
        f ((a.getD (np_index a.length i) []).getD
            (np_index (a.getD 0 []).length j) false)
          ((b.getD (np_index b.length i) []).getD
            (np_index (b.getD 0 []).length j) false))))
  else Except.error "operands could not be broadcast together"

/-- Embedding of `get_wide_mask`.  The matrix `df` is abstracted by the zone
labels of its columns (`cols`) and of its index (`idx`).  Validation first:
if `zones` is `None` then both `col_zones` and `index_zones` must be given,
else `zones` overwrites both.  The column membership vector is broadcast to
`df.shape`, the index membership vector is broadcast to `df.shape` and
transposed — which reproduces numpy's behaviour of raising `ValueError` for
a non-square `df` with more than one row, and of blowing a single-row `df`
up to a `cols`×`cols` mask — and the two masks are joined elementwise with
`join_fn`. -/
def get_wide_mask (cols idx : List Nat) (zones col_zones index_zones : PyArg)
    (join_fn : Bool → Bool → Bool) : Except String (List (List Bool)) :=
  let resolved : Except String (PyArg × PyArg) :=
    match zones with
    | PyArg.pynone =>
      match col_zones, index_zones with
      | PyArg.pynone, _ =>
        Except.error "If zones is not set, both col_zones and row_zones need to be set."
      | _, PyArg.pynone =>
        Except.error "If zones is not set, both col_zones and row_zones need to be set."
      | cz, iz => Except.ok (cz, iz)
    | zs => Except.ok (zs, zs)
  match resolved with
  | Except.error e => Except.error e
  | Except.ok (cz, iz) =>
    match cast_zone_arg cz with
    | Except.error e => Except.error e
    | Except.ok czl =>
      match cast_zone_arg iz with
      | Except.error e => Except.error e
      | Except.ok izl =>
        match np_broadcast_to_row (cols.map (fun c => czl.contains c))
            idx.length cols.length with
        | Except.error e => Except.error e
        | Except.ok col_mask =>
          match np_broadcast_to_row (idx.map (fun r => izl.contains r))
              idx.length cols.length with
          | Except.error e => Except.error e
          | Except.ok index_mask_pre =>
            np_elementwise join_fn col_mask (np_transpose index_mask_pre)

/-- Embedding of `get_internal_mask`: the source calls
`get_wide_mask(df, zones, operator.and_)` with the join function passed
POSITIONALLY, so it lands in the `col_zones` parameter (where it is then
overwritten because `zones` is set) and `join_fn` keeps its default
`operator.and_`. -/
def get_internal_mask (cols idx : List Nat) (zones : List Nat) :
    Except String (List (List Bool)) :=
  get_wide_mask cols idx (PyArg.zone_list zones) (PyArg.join_function py_and)
    PyArg.pynone py_and

/-- Embedding of `get_external_mask`: the source calls
`get_wide_mask(df, zones, operator.or_)` with the join function passed
POSITIONALLY, so the intended bitwise OR lands in the `col_zones` parameter
(where it is then overwritten because `zones` is set) and `join_fn` keeps its
default `operator.and_`. -/
def get_external_mask (cols idx : List Nat) (zones : List Nat) :
    Except String (List (List Bool)) :=
  get_wide_mask cols idx (PyArg.zone_list zones) (PyArg.join_function py_or)
    PyArg.pynone py_and

/-- C8: `get_external_mask` returns exactly the same mask as
`get_internal_mask` on every input: the OR join function it passes
positionally lands in `col_zones` and is overwritten by `zones`, so both
functions run `get_wide_mask` with both zone lists set to `zones` and the
join still the default bitwise AND. -/
theorem external_mask_eq_internal_mask (cols idx zones : List Nat) :
    get_external_mask cols idx zones = get_internal_mask cols idx zones
    ∧ get_internal_mask cols idx zones
      = get_wide_mask cols idx PyArg.pynone (PyArg.zone_list zones)
          (PyArg.zone_list zones) py_and :=
  ⟨rfl, rfl⟩

lemma np_index_eq_of_lt {n i : Nat} (h : i < n) : np_index n i = i := by
  unfold np_index
  by_cases h1 : n = 1
  · rw [if_pos h1]
    omega
  · rw [if_neg h1]

lemma getD_replicate_of_lt {α : Type} (a d : α) {n i : Nat} (h : i < n) :
    (List.replicate n a).getD i d = a := by
  rw [List.getD_eq_getElem _ _ (by simpa using h), List.getElem_replicate]

lemma getD_range_map {α : Type} (g : Nat → α) (d : α) {n i : Nat} (h : i < n) :
    ((List.range n).map g).getD i d = g i := by
  rw [List.getD_eq_getElem _ _ (by simpa using h), List.getElem_map,
    List.getElem_range]

lemma getD_map_of_lt {α β : Type} (f : α → β) (l : List α) (d : β) {i : Nat}
    (h : i < l.length) : (l.map f).getD i d = f (l.get ⟨i, h⟩) := by
  rw [List.getD_eq_getElem _ _ (by simpa using h), List.getElem_map]
  rfl

lemma np_broadcast_full {v : List Bool} {rows colsn : Nat}
    (h : v.length = colsn) :
    np_broadcast_to_row v rows colsn = Except.ok (List.replicate rows v) := by
  show (if v.length = colsn then Except.ok (List.replicate rows v)
      else match v with
        | [b] => Except.ok (List.replicate rows (List.replicate colsn b))
        | _ => Except.error "operands could not be broadcast together")
    = Except.ok (List.replicate rows v)
  rw [if_pos h]

lemma np_broadcast_err {v : List Bool} {rows colsn : Nat}
    (h1 : v.length ≠ colsn) (h2 : v.length ≠ 1) :
    np_broadcast_to_row v rows colsn
      = Except.error "operands could not be broadcast together" := by
  show (if v.length = colsn then Except.ok (List.replicate rows v)
      else match v with
        | [b] => Except.ok (List.replicate rows (List.replicate colsn b))
        | _ => Except.error "operands could not be broadcast together")
    = Except.error "operands could not be broadcast together"
  rw [if_neg h1]
  cases v with
  | nil => rfl
  | cons b t =>
    cases t with
    | nil => exact absurd rfl h2
    | cons c r => rfl

lemma np_transpose_replicate {v : List Bool} {R : Nat} (hv : v.length = R) :
    np_transpose (List.replicate R v)
      = (List.range R).map (fun j => List.replicate R (v.getD j false)) := by
  cases R with
  | zero => rfl
  | succ m =>
    rw [List.replicate_succ]
    show (List.range v.length).map
        (fun j => (v :: List.replicate m v).map (fun row => row.getD j false)) = _
    rw [hv]
    refine List.map_congr_left ?_
    intro j _
    show (v :: List.replicate m v).map (fun row => row.getD j false)
        = List.replicate (m + 1) (v.getD j false)
    rw [List.map_cons, List.map_replicate, List.replicate_succ]

lemma np_elementwise_square (f : Bool → Bool → Bool) (R : Nat)
    (colv indv : List Bool) (hc : colv.length = R) (hi : indv.length = R) :
    np_elementwise f (List.replicate R colv)
        ((List.range R).map (fun j => List.replicate R (indv.getD j false)))
      = Except.ok ((List.range R).map (fun i => (List.range R).map (fun j =>
          f (colv.getD j false) (indv.getD i false)))) := by
  cases R with
  | zero => rfl
  | succ m =>
    have h2 : (List.replicate (m + 1) colv).getD 0 [] = colv :=
      getD_replicate_of_lt _ _ (Nat.succ_pos m)
    have h4 : ((List.range (m + 1)).map
          (fun j => List.replicate (m + 1) (indv.getD j false))).getD 0 []
        = List.replicate (m + 1) (indv.getD 0 false) :=
      getD_range_map _ _ (Nat.succ_pos m)
    have hlb : ((List.range (m + 1)).map
        (fun j => List.replicate (m + 1) (indv.getD j false))).length = m + 1 := by
      simp
    rw [np_elementwise, h2, h4, hlb, hc, List.length_replicate,
      List.length_replicate]
    have hcond : ((m + 1 = m + 1 ∨ m + 1 = 1 ∨ m + 1 = 1)
        ∧ (m + 1 = m + 1 ∨ m + 1 = 1 ∨ m + 1 = 1)) :=
      ⟨Or.inl rfl, Or.inl rfl⟩
    rw [if_pos hcond, Nat.max_self]
    refine congrArg Except.ok (List.map_congr_left ?_)
    intro i hmi
    have hilt : i < m + 1 := List.mem_range.mp hmi
    refine List.map_congr_left ?_
    intro j hmj
    have hjlt : j < m + 1 := List.mem_range.mp hmj
    rw [np_index_eq_of_lt hilt, np_index_eq_of_lt hjlt,
      getD_replicate_of_lt _ _ hilt, getD_range_map _ _ hilt,
      getD_replicate_of_lt _ _ hjlt]

/-- Counterexample to C9 as stated: a 2×3 matrix with `zones` provided and
castable still raises `ValueError`, because `np.broadcast_to` cannot stretch
the length-2 index membership vector to the matrix's (2, 3) shape — so the
error cases are not exactly the missing-zone-argument ones, and no mask of
`df`'s shape is returned. -/
theorem get_wide_mask_nonsquare_counterexample :
    get_wide_mask [1, 2, 3] [1, 2] (PyArg.zone_list [1]) PyArg.pynone
      PyArg.pynone py_and
      = Except.error "operands could not be broadcast together" := rfl

/-- C9 (amended): `get_wide_mask` raises the missing-argument `ValueError`
when `zones` is `None` and at least one of `col_zones` and `index_zones` is
`None`; passing `zones` sets both lists to `zones`; with castable zone lists
it additionally raises `ValueError` out of `np.broadcast_to` whenever `df`
has more than one row and differing row and column counts; and for a square
`df` (with the default join function) it returns a boolean mask of `df`'s
shape whose entry at row `i`, column `j` is true iff `df.columns[j]` is in
the column zones and `df.index[i]` is in the index zones. -/
theorem get_wide_mask_spec (cols idx : List Nat) :
    (∀ iz jf, get_wide_mask cols idx PyArg.pynone PyArg.pynone iz jf
      = Except.error "If zones is not set, both col_zones and row_zones need to be set.")
    ∧ (∀ cz jf, get_wide_mask cols idx PyArg.pynone cz PyArg.pynone jf
      = Except.error "If zones is not set, both col_zones and row_zones need to be set.")
    ∧ (∀ zs cz iz,
        get_wide_mask cols idx (PyArg.zone_list zs) cz iz py_and
          = get_wide_mask cols idx PyArg.pynone (PyArg.zone_list zs)
              (PyArg.zone_list zs) py_and)
    ∧ (∀ czl izl, idx.length ≠ cols.length → idx.length ≠ 1 →
        get_wide_mask cols idx PyArg.pynone (PyArg.zone_list czl)
          (PyArg.zone_list izl) py_and
          = Except.error "operands could not be broadcast together")
    ∧ (∀ czl izl mask, idx.length = cols.length →
        get_wide_mask cols idx PyArg.pynone (PyArg.zone_list czl)
          (PyArg.zone_list izl) py_and = Except.ok mask →
        mask.length = idx.length
        ∧ (∀ i (hi : i < mask.length), (mask.get ⟨i, hi⟩).length = cols.length)
        ∧ (∀ i j (hi : i < idx.length) (hj : j < cols.length)
            (hi2 : i < mask.length) (hj2 : j < (mask.get ⟨i, hi2⟩).length),
            (mask.get ⟨i, hi2⟩).get ⟨j, hj2⟩ = true ↔
              cols.get ⟨j, hj⟩ ∈ czl ∧ idx.get ⟨i, hi⟩ ∈ izl)) := by
  refine ⟨?_, ?_, ?_, ?_, ?_⟩
  · intro iz jf
    cases iz <;> rfl
  · intro cz jf
    cases cz <;> rfl
  · intro zs cz iz
    rfl
  · intro czl izl hne h1
    have hcol := @np_broadcast_full _ idx.length _
      (show (cols.map (fun c => czl.contains c)).length = cols.length by simp)
    have hidx := @np_broadcast_err (idx.map (fun r => izl.contains r))
      idx.length cols.length (by simpa using hne) (by simpa using h1)
    show (match np_broadcast_to_row (cols.map (fun c => czl.contains c))
          idx.length cols.length with
      | Except.error e => Except.error e
      | Except.ok col_mask =>
        match np_broadcast_to_row (idx.map (fun r => izl.contains r))
            idx.length cols.length with
        | Except.error e => Except.error e
        | Except.ok index_mask_pre =>
          np_elementwise py_and col_mask (np_transpose index_mask_pre))
      = Except.error "operands could not be broadcast together"
    rw [hcol, hidx]
  · intro czl izl mask hlen hmask
    have hcol := @np_broadcast_full _ idx.length _
      (show (cols.map (fun c => czl.contains c)).length = cols.length by simp)
    have hidx := @np_broadcast_full _ idx.length _
      (show (idx.map (fun r => izl.contains r)).length = cols.length by
        simp [hlen])
    have heq : get_wide_mask cols idx PyArg.pynone (PyArg.zone_list czl)
        (PyArg.zone_list izl) py_and
        = np_elementwise py_and
            (List.replicate idx.length (cols.map (fun c => czl.contains c)))
            (np_transpose (List.replicate idx.length
              (idx.map (fun r => izl.contains r)))) := by
      show (match np_broadcast_to_row (cols.map (fun c => czl.contains c))
            idx.length cols.length with
        | Except.error e => Except.error e
        | Except.ok col_mask =>
          match np_broadcast_to_row (idx.map (fun r => izl.contains r))
              idx.length cols.length with
          | Except.error e => Except.error e
          | Except.ok index_mask_pre =>
            np_elementwise py_and col_mask (np_transpose index_mask_pre)) = _
      rw [hcol, hidx]
    rw [heq, np_transpose_replicate (by simp),
      np_elementwise_square py_and idx.length _ _ (by simp [hlen]) (by simp),
      Except.ok.injEq] at hmask
    subst hmask
    refine ⟨by simp, ?_, ?_⟩
    · intro i hi
      simp [List.get_eq_getElem, hlen]
    · intro i j hi hj hi2 hj2
      simp only [List.get_eq_getElem, List.getElem_map, List.getElem_range]
      rw [getD_map_of_lt _ _ _ hj, getD_map_of_lt _ _ _ hi]
      simp [py_and, Bool.and_eq_true, List.contains, List.elem_iff]

/-- Witness for C9 (amended): a concrete square 2×2 matrix, column zones
`[1]`, index zones `[2]`; the mask has the matrix's shape and its `(1, 0)`
entry is true. -/
theorem get_wide_mask_spec_witness :
    ((List.range 2).map (fun i => (List.range 2).map (fun j =>
        py_and ((([1, 2] : List Nat).map
            (fun c => ([1] : List Nat).contains c)).getD j false)
          ((([1, 2] : List Nat).map
            (fun r => ([2] : List Nat).contains r)).getD i false)))).length
      = ([1, 2] : List Nat).length := by
  have h := (get_wide_mask_spec [1, 2] [1, 2]).2.2.2.2 [1] [2]
    ((List.range 2).map (fun i => (List.range 2).map (fun j =>
      py_and ((([1, 2] : List Nat).map
          (fun c => ([1] : List Nat).contains c)).getD j false)
        ((([1, 2] : List Nat).map
          (fun r => ([2] : List Nat).contains r)).getD i false))))
    rfl rfl
  exact h.1

/-! ## Demand-vector core

The implementation files `normits_demand/core/zoning.py`,
`normits_demand/core/segments.py` and `normits_demand/core/data_structures.py`
are not part of the source tree; only `normits_demand/core/__init__.py`,
which re-exports `ZoningSystem`, `SegmentationLevel`, `DVector` and
`read_compressed_dvector`, is.  The definitions below are therefore modelled
from the specification document. -/

lemma map_sum_congr {α : Type} (l : List α) (f g : α → ℚ)
    (h : ∀ a ∈ l, f a = g a) : (l.map f).sum = (l.map g).sum :=
  congrArg List.sum (List.map_congr_left h)

lemma list_sum_swap {α β : Type} (l1 : List α) (l2 : List β) (f : α → β → ℚ) :
    (l1.map (fun a => (l2.map (fun b => f a b)).sum)).sum
      = (l2.map (fun b => (l1.map (fun a => f a b)).sum)).sum := by
  induction l1 with
  | nil =>
    simp
  | cons a l1 ih =>
    simp only [List.map_cons, List.sum_cons, ih, ← List.sum_map_add]

lemma sum_map_ite_eq_of_mem {β : Type} [DecidableEq β] (ts : List β)
    (b : β) (c : ℚ) (hnd : ts.Nodup) (hb : b ∈ ts) :
    (ts.map (fun t => if b = t then c else 0)).sum = c := by
  induction ts with
  | nil => cases hb
  | cons t ts ih =>
    by_cases heq : b = t
    · subst heq
      simp only [List.map_cons, List.sum_cons, if_pos rfl]
      have hzero : (ts.map (fun t => if b = t then c else 0)).sum = 0 := by
        refine List.sum_eq_zero ?_
        intro x hx
        rcases List.mem_map.mp hx with ⟨t2, ht2, hval⟩
        have hne : b ≠ t2 := fun hcon => (List.nodup_cons.mp hnd).1 (hcon ▸ ht2)
        rw [if_neg hne] at hval
        exact hval.symm
      rw [hzero]
      simp
    · have hbt : b ∈ ts := by
        rcases List.mem_cons.mp hb with h | h
        · exact absurd h heq
        · exact h
      simp only [List.map_cons, List.sum_cons, if_neg heq,
        ih (List.nodup_cons.mp hnd).2 hbt]
      ring

/-- Splitting a sum over `l` into fibers of a key function: summing the
fiber sums over a duplicate-free list of targets that covers every key gives
back the total. -/
lemma sum_fiberwise {α β : Type} [DecidableEq β] (l : List α) (ts : List β)
    (key : α → β) (f : α → ℚ) (hnd : ts.Nodup)
    (hmem : ∀ a ∈ l, key a ∈ ts) :
    (ts.map (fun t => ((l.filter (fun a => decide (key a = t))).map f).sum)).sum
      = (l.map f).sum := by
  induction l with
  | nil =>
    simp
  | cons a l ih =>
    have hstep : ∀ t ∈ ts,
        (((a :: l).filter (fun x => decide (key x = t))).map f).sum
          = (if key a = t then f a else 0)
            + ((l.filter (fun x => decide (key x = t))).map f).sum := by
      intro t _
      by_cases h : key a = t
      · simp [List.filter_cons, h]
      · simp [List.filter_cons, h]
    rw [map_sum_congr ts _ _ hstep, List.sum_map_add,
      sum_map_ite_eq_of_mem ts (key a) (f a) hnd (hmem a (List.mem_cons_self a l)),
      ih (fun x hx => hmem x (List.mem_cons_of_mem a hx))]
    simp

/-- Modelled from the spec: `ZoningSystem` (its file is missing from the
source tree) — an immutable catalogue with a unique `name` and an ordered
sequence of zone identifiers. -/
structure ZoningSystem where
  name : String
  zones : List Nat
deriving DecidableEq

/-- Modelled from the spec: `SegmentationLevel` (its file is missing from the
source tree) — a `name`, the ordered defining column names, and the
enumerated list of valid segment value-tuples, one value per column. -/
structure SegmentationLevel where
  name : String
  cols : List String
  segs : List (List Nat)
deriving DecidableEq

/-- Modelled from the spec: `project` maps a full segment tuple at the finer
level onto a coarser level's defining columns, reading each coarse column's
value off its position in the fine column list. -/
def project (selfCols otherCols : List String) (seg : List Nat) : List Nat :=
  otherCols.map (fun c =>
    match selfCols.findIdx? (fun c2 => c2 == c) with
    | some i => seg.getD i 0
    | none => 0)

/-- Modelled from the spec: `can_aggregate_to` holds when the other level's
defining columns are a subset of this level's and every valid segment of this
level projects onto a valid segment of the other level (so that aggregation
is total and drops no value). -/
def SegmentationLevel.can_aggregate_to (self other : SegmentationLevel) : Bool :=
  other.cols.all (fun c => self.cols.contains c)
    && self.segs.all (fun s => other.segs.contains (project self.cols other.cols s))

/-- Modelled from the spec: `DVector` — a value store indexed jointly by a
`ZoningSystem`'s zones and a `SegmentationLevel`'s valid segments, with
machine floats modelled by exact rationals. -/
structure DVector where
  zoning : ZoningSystem
  segmentation : SegmentationLevel
  vals : Nat → List Nat → ℚ

/-- Modelled from the spec: `DVector.sum` — the total across all zones and
segments. -/
def DVector.sum (v : DVector) : ℚ :=
  (v.zoning.zones.map (fun z =>
    (v.segmentation.segs.map (fun s => v.vals z s)).sum)).sum

/-- Modelled from the spec: `DVector.aggregate` — valid only when
`can_aggregate_to` holds (else `IncompatibleSegmentationError`); for each
zone independently, sums the values of all source segments that project onto
the same target segment. -/
def DVector.aggregate (v : DVector) (target : SegmentationLevel) :
    Except String DVector :=
  if v.segmentation.can_aggregate_to target then
    Except.ok
      { zoning := v.zoning
        segmentation := target
        vals := fun z t =>
          ((v.segmentation.segs.filter (fun s =>
              decide (project v.segmentation.cols target.cols s = t))).map
            (fun s => v.vals z s)).sum }
  else Except.error "IncompatibleSegmentationError"

/-- C1: for every `DVector` and every coarser `SegmentationLevel` it can
aggregate to, aggregation conserves the grand total: summing the source
segments that project onto the same target segment, per zone, gives a vector
with the same sum. -/
theorem aggregate_conserves_sum (v : DVector) (target : SegmentationLevel)
    (hagg : v.segmentation.can_aggregate_to target = true)
    (hnd : target.segs.Nodup) :
    ∃ w, v.aggregate target = Except.ok w ∧ w.sum = v.sum := by
  refine ⟨_, by rw [DVector.aggregate, if_pos hagg], ?_⟩
  have hmem : ∀ s ∈ v.segmentation.segs,
      project v.segmentation.cols target.cols s ∈ target.segs := by
    have h2 := (Bool.and_eq_true_iff.mp hagg).2
    rw [List.all_eq_true] at h2
    intro s hs
    have := h2 s hs
    rwa [List.contains, List.elem_iff] at this
  show (v.zoning.zones.map _).sum = (v.zoning.zones.map _).sum
  refine map_sum_congr _ _ _ ?_
  intro z _
  exact sum_fiberwise v.segmentation.segs target.segs
    (fun s => project v.segmentation.cols target.cols s)
    (fun s => v.vals z s) hnd hmem

/-- Witness for C1: the spec's scenario — segments `{p:1,m:1}:10` and
`{p:1,m:2}:20` aggregated to segmentation `{p}` yield `{p:1}:30`, conserving
the total 30. -/
theorem aggregate_conserves_sum_witness :
    ∃ w, (DVector.mk (ZoningSystem.mk "one_zone" [1])
        (SegmentationLevel.mk "pm" ["p", "m"] [[1, 1], [1, 2]])
        (fun _ s => if s = [1, 1] then 10 else if s = [1, 2] then 20 else 0)).aggregate
        (SegmentationLevel.mk "p" ["p"] [[1]]) = Except.ok w
      ∧ w.sum = (DVector.mk (ZoningSystem.mk "one_zone" [1])
        (SegmentationLevel.mk "pm" ["p", "m"] [[1, 1], [1, 2]])
        (fun _ s => if s = [1, 1] then 10 else if s = [1, 2] then 20 else 0)).sum :=
  aggregate_conserves_sum _ (SegmentationLevel.mk "p" ["p"] [[1]])
    (by decide) (by decide)

/-- Modelled from the spec: `DVector.translate_zoning` in `"weighted"` mode
(its file is missing from the source tree) — fails with `NotFoundError` when
no translation table exists; otherwise each source zone's value is split
across the target zones in proportion to the table's weights
(`value_target += value_source * weight`), leaving the segmentation
unchanged. -/
def DVector.translate_zoning (v : DVector) (target : ZoningSystem)
    (translation : Option (Nat → Nat → ℚ)) : Except String DVector :=
  match translation with
  | none => Except.error "NotFoundError"
  | some w =>
    Except.ok
      { zoning := target
        segmentation := v.segmentation
        vals := fun zt s =>
          (v.zoning.zones.map (fun zs => v.vals zs s * w zs zt)).sum }

/-- C2: `"weighted"` zone translation splits each source zone's value across
target zones in proportion to the weights, and when the weights of every
source zone sum to 1 the grand total is conserved. -/
theorem translate_weighted_conserves_sum (v : DVector) (target : ZoningSystem)
    (translation : Option (Nat → Nat → ℚ)) (w : Nat → Nat → ℚ)
    (htr : translation = some w)
    (hrow : ∀ z ∈ v.zoning.zones, (target.zones.map (fun zt => w z zt)).sum = 1) :
    ∃ res, v.translate_zoning target translation = Except.ok res
      ∧ (∀ zt s, res.vals zt s
          = (v.zoning.zones.map (fun zs => v.vals zs s * w zs zt)).sum)
      ∧ res.sum = v.sum := by
  subst htr
  refine ⟨_, rfl, fun zt s => rfl, ?_⟩
  show (target.zones.map (fun zt => (v.segmentation.segs.map (fun s =>
      (v.zoning.zones.map (fun zs => v.vals zs s * w zs zt)).sum)).sum)).sum = _
  rw [list_sum_swap target.zones v.segmentation.segs]
  have hinner : ∀ s ∈ v.segmentation.segs,
      (target.zones.map (fun zt =>
        (v.zoning.zones.map (fun zs => v.vals zs s * w zs zt)).sum)).sum
      = (v.zoning.zones.map (fun zs => v.vals zs s)).sum := by
    intro s _
    rw [list_sum_swap target.zones v.zoning.zones]
    refine map_sum_congr _ _ _ ?_
    intro zs hzs
    have : (target.zones.map (fun zt => v.vals zs s * w zs zt)).sum
        = v.vals zs s * (target.zones.map (fun zt => w zs zt)).sum :=
      List.sum_map_mul_left target.zones (fun zt => w zs zt) (v.vals zs s)
    rw [this, hrow zs hzs, mul_one]
  rw [map_sum_congr _ _ _ hinner, list_sum_swap]
  rfl

/-- Witness for C2: the spec's scenario — one source zone with value 100 and
weights 0.3 / 0.7 to two target zones yields 30 and 70, total conserved. -/
theorem translate_weighted_conserves_sum_witness :
    ∃ res, (DVector.mk (ZoningSystem.mk "LAD" [1])
        (SegmentationLevel.mk "p" ["p"] [[1]]) (fun _ _ => 100)).translate_zoning
        (ZoningSystem.mk "split" [10, 20])
        (some (fun _ zt => if zt = 10 then 3/10 else 7/10)) = Except.ok res
      ∧ (∀ zt s, res.vals zt s
          = (([1] : List Nat).map (fun zs =>
              (100 : ℚ) * (if zt = 10 then 3/10 else 7/10))).sum)
      ∧ res.sum = (DVector.mk (ZoningSystem.mk "LAD" [1])
        (SegmentationLevel.mk "p" ["p"] [[1]]) (fun _ _ => 100)).sum :=
  translate_weighted_conserves_sum _ (ZoningSystem.mk "split" [10, 20]) _
    (fun _ zt => if zt = 10 then 3/10 else 7/10) rfl
    (by intro z _; norm_num)

/-- Modelled from the spec: the elementwise division of two `DVector`s
(`IncompatibleZoningError` on mismatched zoning, the coarser operand's values
broadcast across the finer segmentation, `IncompatibleSegmentationError` when
neither level aggregates to the other).  Division by zero yields a propagated
zero when the numerator is also zero at that cell and fails otherwise; over
the rationals no NaN or infinity can arise. -/
def DVector.divide (A B : DVector) : Except String DVector :=
  if A.zoning.name = B.zoning.name then
    if A.segmentation.can_aggregate_to B.segmentation then
      if A.zoning.zones.all (fun z => A.segmentation.segs.all (fun s =>
          !(decide (B.vals z
              (project A.segmentation.cols B.segmentation.cols s) = 0))
            || decide (A.vals z s = 0))) then
        Except.ok
          { zoning := A.zoning
            segmentation := A.segmentation
            vals := fun z s =>
              if B.vals z (project A.segmentation.cols B.segmentation.cols s) = 0
              then 0
              else A.vals z s
                / B.vals z (project A.segmentation.cols B.segmentation.cols s) }
      else Except.error "Division by zero with a nonzero numerator"
    else Except.error "IncompatibleSegmentationError"
  else Except.error "IncompatibleZoningError"

/-- C6: for compatible `DVector`s, at every cell where numerator and
denominator are both zero the quotient holds exactly zero — no exception and
no NaN/infinity that could propagate into downstream sums. -/
theorem divide_zero_by_zero_is_zero (A B : DVector)
    (hz : A.zoning.name = B.zoning.name)
    (hseg : A.segmentation.can_aggregate_to B.segmentation = true)
    (hwf : ∀ z ∈ A.zoning.zones, ∀ s ∈ A.segmentation.segs,
      B.vals z (project A.segmentation.cols B.segmentation.cols s) = 0 →
      A.vals z s = 0) :
    ∃ res, A.divide B = Except.ok res
      ∧ ∀ z s, A.vals z s = 0 →
          B.vals z (project A.segmentation.cols B.segmentation.cols s) = 0 →
          res.vals z s = 0 := by
  have hcheck : A.zoning.zones.all (fun z => A.segmentation.segs.all (fun s =>
      !(decide (B.vals z
          (project A.segmentation.cols B.segmentation.cols s) = 0))
        || decide (A.vals z s = 0))) = true := by
    rw [List.all_eq_true]
    intro z hzz
    rw [List.all_eq_true]
    intro s hss
    by_cases hb : B.vals z (project A.segmentation.cols B.segmentation.cols s) = 0
    · simp [hb, hwf z hzz s hss hb]
    · simp [hb]
  refine ⟨{ zoning := A.zoning
            segmentation := A.segmentation
            vals := fun z s =>
              if B.vals z (project A.segmentation.cols B.segmentation.cols s) = 0
              then 0
              else A.vals z s
                / B.vals z (project A.segmentation.cols B.segmentation.cols s) },
    ?_, ?_⟩
  · rw [DVector.divide, if_pos hz, if_pos hseg, if_pos hcheck]
  · intro z s _ hb
    show (if B.vals z (project A.segmentation.cols B.segmentation.cols s) = 0
      then 0 else _) = 0
    rw [if_pos hb]

/-- Witness for C6: two one-cell vectors that are both zero at their only
cell; the quotient is zero there. -/
theorem divide_zero_by_zero_is_zero_witness :
    ∃ res, (DVector.mk (ZoningSystem.mk "z" [1])
        (SegmentationLevel.mk "p" ["p"] [[1]]) (fun _ _ => 0)).divide
        (DVector.mk (ZoningSystem.mk "z" [1])
          (SegmentationLevel.mk "p" ["p"] [[1]]) (fun _ _ => 0)) = Except.ok res
      ∧ ∀ z s, (0 : ℚ) = 0 → (0 : ℚ) = 0 → res.vals z s = 0 :=
  divide_zero_by_zero_is_zero
    (DVector.mk (ZoningSystem.mk "z" [1])
      (SegmentationLevel.mk "p" ["p"] [[1]]) (fun _ _ => 0))
    (DVector.mk (ZoningSystem.mk "z" [1])
      (SegmentationLevel.mk "p" ["p"] [[1]]) (fun _ _ => 0))
    rfl (by decide) (fun z _ s _ _ => rfl)

/-- Modelled from the spec: the contents of the compressed binary blob a
`DVector` is persisted to — the `(ZoningSystem name, SegmentationLevel name,
value store)` triple, the value store tabulated in zone order and segment
order. -/
structure CompressedDVector where
  zoning_name : String
  segmentation_name : String
  table : List (List ℚ)
deriving DecidableEq

/-- Modelled from the spec: serialization of a `DVector` to its compressed
blob, tabulating the value store over the catalogue's zone and segment
orders. -/
def DVector.to_compressed (v : DVector) : CompressedDVector :=
  { zoning_name := v.zoning.name
    segmentation_name := v.segmentation.name
    table := v.zoning.zones.map (fun z =>
      v.segmentation.segs.map (fun s => v.vals z s)) }

/-- Position of the first occurrence of a key in a catalogue list. -/
def index_of_key {α : Type} [DecidableEq α] (a : α) : List α → Option Nat
  | [] => none
  | x :: xs => if x = a then some 0 else (index_of_key a xs).map (fun i => i + 1)

/-- Modelled from the spec: `read_compressed_dvector` (its file is missing
from the source tree) — deserialization of a compressed blob, looking the
zoning and segmentation up in their registries by name (`None` when a name
is unknown) and indexing the tabulated value store by catalogue position. -/
def read_compressed_dvector (get_zoning : String → Option ZoningSystem)
    (get_seg : String → Option SegmentationLevel) (blob : CompressedDVector) :
    Option DVector :=
  match get_zoning blob.zoning_name, get_seg blob.segmentation_name with
  | some zo, some se =>
    some
      { zoning := zo
        segmentation := se
        vals := fun z s =>
          match index_of_key z zo.zones, index_of_key s se.segs with
          | some i, some j => (blob.table.getD i []).getD j 0
          | _, _ => 0 }
  | _, _ => none

lemma index_of_key_spec {α : Type} [DecidableEq α] (l : List α) (a : α)
    (ha : a ∈ l) :
    ∃ i, index_of_key a l = some i
      ∧ ∃ h : i < l.length, l.get ⟨i, h⟩ = a := by
  induction l with
  | nil => cases ha
  | cons x xs ih =>
    by_cases hx : x = a
    · exact ⟨0, by simp [index_of_key, hx], Nat.succ_pos _, hx⟩
    · have hmem : a ∈ xs := by
        rcases List.mem_cons.mp ha with h | h
        · exact absurd h.symm hx
        · exact h
      obtain ⟨i, hfind, hlt, hget⟩ := ih hmem
      refine ⟨i + 1, ?_, Nat.succ_lt_succ hlt, hget⟩
      simp [index_of_key, hx, hfind]

/-- C7: deserializing the serialized compressed blob of a `DVector`
reproduces it exactly — the same `ZoningSystem`, the same
`SegmentationLevel`, and identical values at every catalogued (zone, segment)
cell — provided the registries resolve the stored names back to the vector's
own zoning and segmentation. -/
theorem read_compressed_round_trip (v : DVector)
    (get_zoning : String → Option ZoningSystem)
    (get_seg : String → Option SegmentationLevel)
    (hz : get_zoning v.zoning.name = some v.zoning)
    (hs : get_seg v.segmentation.name = some v.segmentation) :
    ∃ w, read_compressed_dvector get_zoning get_seg v.to_compressed = some w
      ∧ w.zoning = v.zoning ∧ w.segmentation = v.segmentation
      ∧ ∀ z ∈ v.zoning.zones, ∀ s ∈ v.segmentation.segs,
          w.vals z s = v.vals z s := by
  refine ⟨{ zoning := v.zoning
            segmentation := v.segmentation
            vals := fun z s =>
              match index_of_key z v.zoning.zones,
                  index_of_key s v.segmentation.segs with
              | some i, some j => (v.to_compressed.table.getD i []).getD j 0
              | _, _ => 0 }, ?_, rfl, rfl, ?_⟩
  · rw [read_compressed_dvector]
    rw [show v.to_compressed.zoning_name = v.zoning.name from rfl,
      show v.to_compressed.segmentation_name = v.segmentation.name from rfl,
      hz, hs]
  · intro z hzm s hsm
    obtain ⟨i, hiz, hilt, higet⟩ := index_of_key_spec v.zoning.zones z hzm
    obtain ⟨j, hjz, hjlt, hjget⟩ := index_of_key_spec v.segmentation.segs s hsm
    show (match index_of_key z v.zoning.zones,
        index_of_key s v.segmentation.segs with
      | some i, some j => (v.to_compressed.table.getD i []).getD j 0
      | _, _ => 0) = v.vals z s
    rw [hiz, hjz]
    show (v.to_compressed.table.getD i []).getD j 0 = v.vals z s
    have htab : v.to_compressed.table.getD i []
        = v.segmentation.segs.map (fun s2 => v.vals z s2) := by
      have hlen : i < v.to_compressed.table.length := by
        show i < (v.zoning.zones.map _).length
        rw [List.length_map]
        exact hilt
      rw [List.getD_eq_getElem _ _ hlen]
      show (v.zoning.zones.map (fun z2 =>
        v.segmentation.segs.map (fun s2 => v.vals z2 s2)))[i] = _
      rw [List.getElem_map]
      rw [show v.zoning.zones[i] = v.zoning.zones.get ⟨i, hilt⟩ from rfl, higet]
    rw [htab]
    have hlen2 : j < (v.segmentation.segs.map (fun s2 => v.vals z s2)).length := by
      rw [List.length_map]
      exact hjlt
    rw [List.getD_eq_getElem _ _ hlen2, List.getElem_map]
    rw [show v.segmentation.segs[j] = v.segmentation.segs.get ⟨j, hjlt⟩ from rfl,
      hjget]

/-- Witness for C7: a concrete one-zone, two-segment vector round-trips
through its compressed blob. -/
theorem read_compressed_round_trip_witness :
    ∃ w, read_compressed_dvector
        (fun n => if n = "MSOA" then some (ZoningSystem.mk "MSOA" [3]) else none)
        (fun n => if n = "p" then some (SegmentationLevel.mk "p" ["p"] [[1], [2]])
          else none)
        (DVector.mk (ZoningSystem.mk "MSOA" [3])
          (SegmentationLevel.mk "p" ["p"] [[1], [2]])
          (fun z s => if s = [1] then 5 else 8)).to_compressed = some w
      ∧ w.zoning = ZoningSystem.mk "MSOA" [3]
      ∧ w.segmentation = SegmentationLevel.mk "p" ["p"] [[1], [2]]
      ∧ ∀ z ∈ [3], ∀ s ∈ [[1], [2]],
          w.vals z s = (fun (z : Nat) (s : List Nat) => if s = [1] then (5 : ℚ) else 8) z s :=
  read_compressed_round_trip
    (DVector.mk (ZoningSystem.mk "MSOA" [3])
      (SegmentationLevel.mk "p" ["p"] [[1], [2]])
      (fun z s => if s = [1] then 5 else 8))
    (fun n => if n = "MSOA" then some (ZoningSystem.mk "MSOA" [3]) else none)
    (fun n => if n = "p" then some (SegmentationLevel.mk "p" ["p"] [[1], [2]])
      else none)
    rfl rfl

end NorMITs
